import Mathlib

/-!
Shallow embedding of the frontmatter lint tool (Zenn/MDX linter scripts).

The source repository is a set of TypeScript lint scripts.  The richest
variant (`lintBookConfig` with the numbered-chapter fallback,
`runMainWithoutExit`) is embedded here together with the named script
`scripts/lint-zenn.ts` where the two differ (report layer).

Filesystem and YAML parsing are external collaborators: a parsed YAML
value is modelled by the inductive `Yaml`, a parsed frontmatter mapping
by an insertion-ordered association list `List (String × Yaml)`, and a
book directory by the list of its entry names.  Functions keep the
source's names.
-/

/-- A parsed YAML value as produced by the external YAML/frontmatter
parser (`js-yaml` / `gray-matter`): scalars, sequences and mappings.
Mappings preserve insertion order. -/
inductive Yaml where
  | null : Yaml
  | bool (b : Bool) : Yaml
  | num (n : Int) : Yaml
  | str (s : String) : Yaml
  | arr (xs : List Yaml) : Yaml
  | obj (kvs : List (String × Yaml)) : Yaml

/-- JavaScript truthiness of a value coming out of the YAML parser. -/
def Yaml.truthy : Yaml → Bool
  | .null => false
  | .bool b => b
  | .num n => n != 0
  | .str s => s != ""
  | .arr _ => true
  | .obj _ => true

/-- `key in obj` for a parsed mapping (own-property membership). -/
def hasKey (kvs : List (String × Yaml)) (k : String) : Bool :=
  kvs.any (fun kv => kv.1 == k)

/-- `obj[key]` for a parsed mapping: `none` models `undefined`. -/
def jsGet (kvs : List (String × Yaml)) (k : String) : Option Yaml :=
  (kvs.find? (fun kv => kv.1 == k)).map (fun kv => kv.2)

/-- `obj[key] = v` on a JS object: update in place if the key exists,
else append (insertion order is kept on update). -/
def objSet (kvs : List (String × Yaml)) (k : String) (v : Yaml) :
    List (String × Yaml) :=
  if hasKey kvs k then
    kvs.map (fun kv => if kv.1 == k then (k, v) else kv)
  else kvs ++ [(k, v)]

/-- Does `pat` occur as a contiguous run inside the character list? -/
def containsSeq (pat : List Char) : List Char → Bool
  | [] => pat.isEmpty
  | c :: rest => pat.isPrefixOf (c :: rest) || containsSeq pat rest

/-- `haystack.includes(needle)` on JS strings. -/
def jsIncludes (s pat : String) : Bool :=
  containsSeq pat.toList s.toList

/-- `s.endsWith(suffix)` on JS strings. -/
def jsEndsWith (s suffix : String) : Bool :=
  suffix.toList.reverse.isPrefixOf s.toList.reverse

/-- Lexicographic comparison of character lists by code point — the
order used by `Array.prototype.sort`'s default comparator. -/
def charListLeb : List Char → List Char → Bool
  | [], _ => true
  | _ :: _, [] => false
  | a :: as, b :: bs => if a = b then charListLeb as bs else decide (a < b)

/-- JS default string sort order. -/
def jsStrLe (a b : String) : Bool :=
  charListLeb a.toList b.toList

/-- `filePath.replace(/\\/g, '/')`: normalise Windows separators. -/
def normalizeSep (s : String) : String :=
  s.map (fun c => if c = '\\' then '/' else c)

/-- Split a character list on a separator character (the groups are
the maximal runs between separators, like `String.splitOn`). -/
def splitOnChar (c : Char) (cs : List Char) : List (List Char) :=
  cs.foldr
    (fun x acc =>
      match acc with
      | [] => [[x]]
      | g :: gs => if x = c then [] :: g :: gs else (x :: g) :: gs)
    [[]]

/-- `path.basename(p)`: the component after the last `/`. -/
def jsBasename (p : String) : String :=
  String.mk (((splitOnChar '/' p.toList).getLast?).getD p.toList)

/-- Index of the last `.` in a character list, if any. -/
def lastDotIndex (cs : List Char) : Option Nat :=
  ((cs.enum.filter (fun ic => ic.2 == '.')).getLast?).map (fun ic => ic.1)

/-- `path.basename(p, path.extname(p))`: base name with the extension
(the part from the last dot, when that dot is not the first character
of the base name) removed. -/
def basenameNoExt (p : String) : String :=
  let b := (jsBasename p).toList
  match lastDotIndex b with
  | some i => if 0 < i then String.mk (b.take i) else String.mk b
  | none => String.mk b

/-- Characters allowed by the `\d` class. -/
def isDigitChar (c : Char) : Bool := '0' ≤ c && c ≤ '9'

/-- Characters allowed by the `[a-z0-9_-]` class of the slug rules. -/
def isSlugChar (c : Char) : Bool :=
  ('a' ≤ c && c ≤ 'z') || isDigitChar c || c == '_' || c == '-'

/-- `isValidSlug`: the anchored regex `/^[a-z0-9_-]{12,50}$/` — every
character is in the class and the length lies in `[12, 50]`. -/
def isValidSlug (slug : String) : Bool :=
  slug.toList.all isSlugChar && 12 ≤ slug.length && slug.length ≤ 50

/-- `isNumberedChapterFileName`: the anchored regex
`/^\d+\.[a-z0-9_-]+\.md$/` — one or more digits, a dot, one or more
slug characters, then the literal `.md`. -/
def isNumberedChapterFileName (fileName : String) : Bool :=
  let cs := fileName.toList
  let ds := cs.span isDigitChar
  !ds.1.isEmpty &&
    match ds.2 with
    | '.' :: rest =>
      let ss := rest.span isSlugChar
      !ss.1.isEmpty && ss.2 == ['.', 'm', 'd']
    | _ => false

/-- `extractSlugFromNumberedChapter`: capture the slug part of
`<digits>.<slug>.md`; on no match the whole file name is returned. -/
def extractSlugFromNumberedChapter (fileName : String) : String :=
  let cs := fileName.toList
  let ds := cs.span isDigitChar
  if ds.1.isEmpty then fileName
  else
    match ds.2 with
    | '.' :: rest =>
      let ss := rest.span isSlugChar
      if !ss.1.isEmpty && ss.2 == ['.', 'm', 'd'] then String.mk ss.1
      else fileName
    | _ => fileName

/-- `extractSlugFromPath`: the file's base name without extension. -/
def extractSlugFromPath (filePath : String) : String :=
  basenameNoExt filePath

/-- `array.indexOf(x)` on JS arrays: the first index, `-1` if absent. -/
def jsIndexOf : List String → String → Int
  | [], _ => -1
  | a :: rest, s =>
    if a == s then 0
    else
      let r := jsIndexOf rest s
      if r == -1 then -1 else r + 1

/-- One step of the order check: a consecutive pair `(prev, cur)` of
observed keys satisfies order when either key is absent from the
canonical order, or prev's position is strictly before cur's. -/
def pairInOrder (propertyOrder : List String) (prevProp prop : String) : Bool :=
  let prevPropIndex := jsIndexOf propertyOrder prevProp
  let currentPropIndex := jsIndexOf propertyOrder prop
  if prevPropIndex == -1 || currentPropIndex == -1 then true
  else decide (prevPropIndex < currentPropIndex)

/-- The order check of `lintZennFrontmatter` / `lintMdxFrontmatter`:
`currentProps.every((prop, index, arr) => ...)` over consecutive
pairs, index 0 passing trivially. -/
def isInCorrectOrder (propertyOrder : List String) (currentProps : List String) : Bool :=
  (List.range currentProps.length).all fun index =>
    index == 0 ||
      pairInOrder propertyOrder (currentProps.getD (index - 1) "")
        (currentProps.getD index "")

/-- The lint configuration (`LintConfig`). -/
structure LintConfig where
  propertyOrder : List String
  requiredProperties : List (String × List String)
  bookConfigRequiredProperties : List String
  contentTypePatterns : List (String × List String)

/-- `DEFAULT_CONFIG` of `scripts/lint-zenn.ts`. -/
def DEFAULT_CONFIG : LintConfig :=
  { propertyOrder := ["title", "emoji", "type", "topics", "published", "published_at"]
    requiredProperties :=
      [("article", ["title", "emoji", "type", "topics", "published"]),
       ("bookChapter", ["title"]),
       ("default", ["title", "published"])]
    bookConfigRequiredProperties :=
      ["title", "summary", "topics", "published", "price", "chapters"]
    contentTypePatterns :=
      [("article", ["articles/"]), ("bookChapter", ["books/"])] }

/-- `getContentType`: first content type (in configuration order) one
of whose path substrings occurs in the separator-normalised path;
`"default"` when none matches. -/
def getContentType (cfg : LintConfig) (filePath : String) : String :=
  let normalizedPath := normalizeSep filePath
  match cfg.contentTypePatterns.find?
      (fun tp => tp.2.any (fun pat => jsIncludes normalizedPath pat)) with
  | some tp => tp.1
  | none => "default"

/-- Per-document validation result (`LintResult`). Optional TS fields
are modelled with defaults (`invalidSlug = false`, no message). -/
structure LintResult where
  file : String
  contentType : String
  missing : List String
  wrongOrder : Bool
  currentOrder : List String
  invalidSlug : Bool := false
  slugError : Option String := none

/-- `lintZennFrontmatter` on an already-parsed document: missing
required keys, order check over the observed key sequence, and (for
the article type only) the slug check on the path-derived slug. -/
def lintZennFrontmatter (cfg : LintConfig) (filePath : String)
    (data : List (String × Yaml)) : LintResult :=
  let contentType := getContentType cfg filePath
  let requiredProps := ((cfg.requiredProperties.find?
      (fun kv => kv.1 == contentType)).map (fun kv => kv.2)).getD []
  let missing := requiredProps.filter (fun prop => !hasKey data prop)
  let currentProps := data.map (fun kv => kv.1)
  let inOrder := isInCorrectOrder cfg.propertyOrder currentProps
  let base : LintResult :=
    { file := filePath, contentType := contentType, missing := missing
      wrongOrder := !inOrder, currentOrder := currentProps }
  if contentType == "article" then
    let slug := extractSlugFromPath filePath
    if !isValidSlug slug then
      { base with
          invalidSlug := true
          slugError := some ("スラッグ \"" ++ slug ++
                    "\" は無効です。a-z0-9、ハイフン(-)、アンダースコア(_)の12〜50字の組み合わせにする必要があります。") }
    else base
  else base

/-- Book manifest validation result (`BookConfigLintResult`); optional
TS fields are modelled with defaults. -/
structure BookConfigLintResult where
  dir : String
  missing : List String
  missingConfigFile : Bool
  invalidChapters : Bool := false
  chaptersError : Option String := none
  duplicateChapterSlug : Bool := false
  duplicateChapterNames : List String := []

/-- The duplicate-collection loop shared by both slug checks: walk the
list keeping the set of values seen so far; every value met again is
appended to the duplicates list. -/
def collectDuplicates (seen : List String) : List String → List String
  | [] => []
  | s :: rest =>
    if s ∈ seen then s :: collectDuplicates seen rest
    else collectDuplicates (seen ++ [s]) rest

/-- `checkNumberedChapterFiles`: the filename-derived fallback used
when the manifest declares `chapters: []`.  `dirEntries` are the book
directory's entries; the `.md` ones are sorted lexicographically
(JS `Array.prototype.sort`, a stable code-unit sort). -/
def checkNumberedChapterFiles (dirEntries : List String)
    (result : BookConfigLintResult) : BookConfigLintResult :=
  let mdFiles := (dirEntries.filter (fun f => jsEndsWith f ".md")).insertionSort (fun a b => jsStrLe a b = true)
  if mdFiles.isEmpty then
    { result with
        invalidChapters := true
        chaptersError := some "チャプターとなるMarkdownファイルが見つかりません。" }
  else
    let nonNumberedFiles := mdFiles.filter (fun f => !isNumberedChapterFileName f)
    if 0 < nonNumberedFiles.length ∧ nonNumberedFiles.length ≠ mdFiles.length then
      { result with
          invalidChapters := true
          chaptersError := some "一部のファイルのみが番号付き形式（数字.スラッグ.md）になっています。全てのファイルを統一してください。" }
    else
      let duplicateSlugs := collectDuplicates []
        ((mdFiles.filter isNumberedChapterFileName).map extractSlugFromNumberedChapter)
      if !duplicateSlugs.isEmpty then
        { result with
            duplicateChapterSlug := true
            duplicateChapterNames := duplicateSlugs
            invalidChapters := true
            chaptersError := some ("複数のチャプターで同じスラッグが使用されています: " ++
              String.intercalate ", " duplicateSlugs) }
      else result

/-- The descriptor scan
`chapters.find(ch => typeof ch !== 'object' || !('file' in ch) || !('title' in ch))`.
JS details carried over: `typeof null` is `'object'` but `'file' in
null` throws a `TypeError` (modelled as `Except.error`, caught by the
surrounding `catch`); an array is an object in which `'file'` is not a
key.  Like `Array.prototype.find`, returns the first descriptor
satisfying the predicate (`none` models `undefined`): the caller's
`if (invalidChapter)` tests the truthiness of this element, not mere
presence. -/
def findInvalidChapter : List Yaml → Except Unit (Option Yaml)
  | [] => .ok none
  | c :: rest =>
    match c with
    | .null => .error ()
    | .obj kvs =>
      if hasKey kvs "file" && hasKey kvs "title" then findInvalidChapter rest
      else .ok (some c)
    | .arr _ => .ok (some c)
    | _ => .ok (some c)

/-- The slug list of the duplicate-slug loop over explicit chapter
descriptors: a descriptor contributes `basename(file, extname(file))`
when `chapter && chapter.file` is truthy.  `path.basename` throws on a
non-string argument (modelled as `Except.error`). -/
def chapterSlugs : List Yaml → Except Unit (List String)
  | [] => .ok []
  | c :: rest =>
    let fileVal :=
      match c with
      | .obj kvs => jsGet kvs "file"
      | _ => none
    if c.truthy then
      match fileVal with
      | some v =>
        if v.truthy then
          match v with
          | .str s => do
            let others ← chapterSlugs rest
            .ok (basenameNoExt s :: others)
          | _ => .error ()
        else chapterSlugs rest
      | none => chapterSlugs rest
    else chapterSlugs rest

/-- `lintBookConfig` (the variant with the numbered-chapter fallback),
abstracted over the filesystem: `configExists` says whether
`config.yaml` exists, `parsed` is the parsed manifest (`none` when
`yaml.load` throws), `dirEntries` lists the book directory's entries.
The source tests the chapters value sequentially (non-array excluding
null/undefined → invalid; empty array → fallback; non-empty array →
descriptor checks; null → fall through); the match below lists the
same disjoint cases.  A `TypeError` thrown inside the `try` block
lands in the same `catch` as a parse failure: the partial result is
returned with `missing` overwritten by the full required list. -/
def lintBookConfig (cfg : LintConfig) (bookDir : String)
    (configExists : Bool) (parsed : Option (List (String × Yaml)))
    (dirEntries : List String) : BookConfigLintResult :=
  let result : BookConfigLintResult :=
    { dir := bookDir, missing := [], missingConfigFile := false }
  if !configExists then { result with missingConfigFile := true }
  else
    match parsed with
    | none => { result with missing := cfg.bookConfigRequiredProperties }
    | some configData =>
      let missingProps := cfg.bookConfigRequiredProperties.filter
        (fun prop => !hasKey configData prop)
      let result := { result with missing := missingProps }
      if hasKey configData "chapters" then
        match (jsGet configData "chapters").getD .null with
        | .arr [] => checkNumberedChapterFiles dirEntries result
        | .arr chapters =>
          match findInvalidChapter chapters with
          | .error _ => { result with missing := cfg.bookConfigRequiredProperties }
          | .ok invalidChapter =>
            let result :=
              match invalidChapter with
              | some c =>
                if c.truthy then
                  { result with
                      invalidChapters := true
                      chaptersError := some "各チャプターは file および title プロパティを持つ必要があります。" }
                else result
              | none => result
            match chapterSlugs chapters with
            | .error _ => { result with missing := cfg.bookConfigRequiredProperties }
            | .ok slugs =>
              let duplicateSlugs := collectDuplicates [] slugs
              if !duplicateSlugs.isEmpty then
                { result with
                    duplicateChapterSlug := true
                    duplicateChapterNames := duplicateSlugs }
              else result
        | .null => result
        | _ =>
          { result with
              invalidChapters := true
              chaptersError := some "chaptersプロパティは配列である必要があります。" }
      else result

/-- The ordered-mapping construction of `sortFrontmatter`: first pass
adds the canonical-order keys present in the data, second pass adds
every data key not yet placed, in original order. -/
def sortFrontmatter (propertyOrder : List String)
    (data : List (String × Yaml)) : List (String × Yaml) :=
  let sortedData := propertyOrder.foldl
    (fun sorted prop =>
      match jsGet data prop with
      | some v => objSet sorted prop v
      | none => sorted) []
  data.foldl
    (fun sorted kv =>
      if hasKey sorted kv.1 then sorted else objSet sorted kv.1 kv.2)
    sortedData

/-- A parsed document: frontmatter mapping plus opaque body. -/
structure ParsedDoc where
  data : List (String × Yaml)
  body : String

/-- `sortFrontmatter` at document level: the rewritten file
serialises the reordered mapping with the body content unchanged
(`matter.stringify(mdContent, sortedData)`). -/
def sortFrontmatterFile (propertyOrder : List String) (doc : ParsedDoc) : ParsedDoc :=
  { data := sortFrontmatter propertyOrder doc.data, body := doc.body }

/-- A discovered content file with its parse result (`none`: reading
or parsing threw, `lintZennFrontmatter` returns null and the file is
skipped). -/
structure FileInput where
  path : String
  parsed : Option (List (String × Yaml))

/-- A discovered book directory with its manifest state. -/
structure BookInput where
  dir : String
  configExists : Bool
  parsed : Option (List (String × Yaml))
  dirEntries : List String

/-- The per-document error condition of the aggregation loop:
`result.missing.length > 0 || result.wrongOrder || result.invalidSlug`. -/
def docHasError (r : LintResult) : Bool :=
  !r.missing.isEmpty || r.wrongOrder || r.invalidSlug

/-- The per-book error condition of the aggregation loop:
`missing.length > 0 || missingConfigFile || invalidChapters || duplicateChapterSlug`. -/
def bookHasError (r : BookConfigLintResult) : Bool :=
  !r.missing.isEmpty || r.missingConfigFile || r.invalidChapters || r.duplicateChapterSlug

/-- Outcome of one run: the collected failing results, the aggregated
error flag, and the process exit code. -/
structure RunOutcome where
  frontmatterResults : List LintResult
  bookConfigResults : List BookConfigLintResult
  hasErrors : Bool
  exitCode : Nat

/-- `runMainWithoutExit`, abstracted over the filesystem: documents
failing a check are collected into `frontmatterResults`, books failing
a check into `bookConfigResults`; `hasErrors` is set iff anything was
collected; the process exits non-zero iff `hasErrors` and `--fix` was
not supplied. -/
def runMainWithoutExit (cfg : LintConfig) (files : List FileInput)
    (bookDirs : List BookInput) (fix : Bool) : RunOutcome :=
  let docResults := files.filterMap
    (fun f => (f.parsed).map (lintZennFrontmatter cfg f.path))
  let frontmatterResults := docResults.filter docHasError
  let bookResults := bookDirs.map
    (fun b => lintBookConfig cfg b.dir b.configExists b.parsed b.dirEntries)
  let bookConfigResults := bookResults.filter bookHasError
  let hasErrors := !frontmatterResults.isEmpty || !bookConfigResults.isEmpty
  { frontmatterResults := frontmatterResults
    bookConfigResults := bookConfigResults
    hasErrors := hasErrors
    exitCode := if hasErrors && !fix then 1 else 0 }

/-- The per-book report block of `runMainWithoutExit` (the fuller
variant): every failing book's findings are printed from the computed
result fields. -/
def reportBookLines (r : BookConfigLintResult) : List String :=
  ["\n本ディレクトリ: " ++ r.dir]
  ++ (if r.missingConfigFile then ["  config.yamlファイルが見つかりません"] else [])
  ++ (if !r.missing.isEmpty then
        ["  必須プロパティが不足しています: " ++ String.intercalate ", " r.missing]
      else [])
  ++ (if r.invalidChapters then ["  " ++ r.chaptersError.getD ""] else [])
  ++ (if r.duplicateChapterSlug then
        ["  複数のチャプターで同じスラッグが使用されています: " ++
          String.intercalate ", " r.duplicateChapterNames]
      else [])

/-- The per-book report block of `main` in `scripts/lint-zenn.ts`
(lines 423–439): under the comment for the required-property check it
prints a missing-keys line only when the directory name contains
"zenn-book-sample", and that line always names `price` instead of the
computed `missing` list. -/
def reportBookLinesZenn (r : BookConfigLintResult) : List String :=
  ["\n本ディレクトリ: " ++ r.dir]
  ++ (if r.missingConfigFile then ["  config.yamlファイルが見つかりません"] else [])
  ++ (if jsIncludes r.dir "zenn-book-sample" then
        ["  必須プロパティが不足しています: price"]
      else [])
  ++ (if r.invalidChapters then ["  " ++ r.chaptersError.getD ""] else [])

/-- The invalid-descriptor predicate of the explicit-chapters check on
descriptors that do not make the JS key-membership test throw:
`typeof ch !== 'object' || !('file' in ch) || !('title' in ch)`
(arrays and primitives always fail it, `null` would throw). -/
def chapterMissingFileOrTitle : Yaml → Bool
  | .obj kvs => !(hasKey kvs "file" && hasKey kvs "title")
  | _ => true

/-- The slug a descriptor contributes to the duplicate-slug check on
non-throwing inputs: an object whose truthy `file` value is a string
contributes `basename(file, extname(file))`; everything else is
skipped by the `chapter && chapter.file` guard. -/
def chapterFileSlug : Yaml → Option String
  | .obj kvs =>
    match jsGet kvs "file" with
    | some (Yaml.str s) => if s == "" then none else some (basenameNoExt s)
    | _ => none
  | _ => none

/-- A complete book manifest whose chapters list is declared empty. -/
def sampleManifestEmptyChapters : List (String × Yaml) :=
  [("title", Yaml.str "T"), ("summary", Yaml.str "S"), ("topics", Yaml.arr []),
   ("published", Yaml.bool true), ("price", Yaml.num 0), ("chapters", Yaml.arr [])]

/-- A book manifest missing only `title`, with one well-formed chapter. -/
def manifestMissingTitle : List (String × Yaml) :=
  [("summary", Yaml.str "S"), ("topics", Yaml.arr []),
   ("published", Yaml.bool true), ("price", Yaml.num 0),
   ("chapters", Yaml.arr [Yaml.obj
     [("file", Yaml.str "1.intro.md"), ("title", Yaml.str "Intro")]])]

/-! ## Properties of the order check -/

theorem jsIndexOf_ge_neg_one (l : List String) (s : String) : -1 ≤ jsIndexOf l s := by
  induction l with
  | nil => simp [jsIndexOf]
  | cons a rest ih =>
    simp only [jsIndexOf]
    split
    · omega
    · split <;> omega

theorem jsIndexOf_eq_neg_one (l : List String) (s : String) :
    jsIndexOf l s = -1 ↔ s ∉ l := by
  induction l with
  | nil => simp [jsIndexOf]
  | cons a rest ih =>
    by_cases h : a = s
    · simp [jsIndexOf, h]
    · have hne : ¬(a == s) = true := by simp [h]
      simp only [jsIndexOf, hne, if_false, Bool.false_eq_true]
      by_cases h2 : jsIndexOf rest s = -1
      · have : (jsIndexOf rest s == -1) = true := by simp [h2]
        simp [this, h2, ih.mp h2, Ne.symm h]
      · have hge := jsIndexOf_ge_neg_one rest s
        have : (jsIndexOf rest s == -1) = false := by simp [h2]
        simp only [this, Bool.false_eq_true, if_false, List.mem_cons]
        constructor
        · intro hc; omega
        · intro hc
          exact absurd (fun hm => hc (Or.inr hm)) (fun hns => h2 (ih.mpr hns))

theorem jsIndexOf_nonneg (l : List String) (s : String) (h : s ∈ l) :
    0 ≤ jsIndexOf l s := by
  have h1 := jsIndexOf_ge_neg_one l s
  have h2 : jsIndexOf l s ≠ -1 := fun hc => (jsIndexOf_eq_neg_one l s |>.mp hc) h
  omega

theorem pairInOrder_iff (order : List String) (a b : String) :
    pairInOrder order a b = true ↔
      (a ∈ order → b ∈ order → jsIndexOf order a < jsIndexOf order b) := by
  unfold pairInOrder
  by_cases ha : a ∈ order
  · by_cases hb : b ∈ order
    · have ha' : ¬ jsIndexOf order a = -1 :=
        fun hc => (jsIndexOf_eq_neg_one order a |>.mp hc) ha
      have hb' : ¬ jsIndexOf order b = -1 :=
        fun hc => (jsIndexOf_eq_neg_one order b |>.mp hc) hb
      simp [ha', hb', ha, hb]
    · have hb' : jsIndexOf order b = -1 := (jsIndexOf_eq_neg_one order b).mpr hb
      simp [hb', hb]
  · have ha' : jsIndexOf order a = -1 := (jsIndexOf_eq_neg_one order a).mpr ha
    simp [ha', ha]

theorem isInCorrectOrder_iff (order ks : List String) :
    isInCorrectOrder order ks = true ↔
      ∀ i, i + 1 < ks.length →
        pairInOrder order (ks.getD i "") (ks.getD (i + 1) "") = true := by
  unfold isInCorrectOrder
  rw [List.all_eq_true]
  constructor
  · intro h i hi
    have := h (i + 1) (by rw [List.mem_range]; omega)
    simpa using this
  · intro h index hidx
    rw [List.mem_range] at hidx
    match index with
    | 0 => simp
    | j + 1 =>
      have := h j (by omega)
      simpa using this

theorem consecutive_pair_sublist (ks : List String) (i : Nat) (h : i + 1 < ks.length) :
    [ks.getD i "", ks.getD (i + 1) ""].Sublist ks := by
  induction ks generalizing i with
  | nil => simp at h
  | cons a rest ih =>
    match i with
    | 0 =>
      simp only [List.getD_cons_zero, List.getD_cons_succ]
      apply List.Sublist.cons₂
      match rest, h with
      | b :: rest', _ =>
        exact List.getD_cons_zero ▸ List.Sublist.cons₂ b (List.nil_sublist rest')
    | j + 1 =>
      simp only [List.getD_cons_succ]
      exact List.Sublist.cons a (ih j (by simpa using h))

theorem jsIndexOf_lt_of_sublist (l : List String) (hn : l.Nodup) (a b : String)
    (h : [a, b].Sublist l) : jsIndexOf l a < jsIndexOf l b := by
  induction l with
  | nil => simp at h
  | cons c rest ih =>
    rw [List.nodup_cons] at hn
    cases h with
    | cons _ h' =>
      have hamem : a ∈ rest := h'.subset (by simp)
      have hbmem : b ∈ rest := h'.subset (by simp)
      have hca : ¬(c == a) = true := by
        simp only [beq_iff_eq]; intro hc; exact hn.1 (hc ▸ hamem)
      have hcb : ¬(c == b) = true := by
        simp only [beq_iff_eq]; intro hc; exact hn.1 (hc ▸ hbmem)
      have ha' : ¬ jsIndexOf rest a = -1 :=
        fun hc => (jsIndexOf_eq_neg_one rest a |>.mp hc) hamem
      have hb' : ¬ jsIndexOf rest b = -1 :=
        fun hc => (jsIndexOf_eq_neg_one rest b |>.mp hc) hbmem
      have := ih hn.2 h'
      simp only [jsIndexOf, hca, hcb, if_false, Bool.false_eq_true]
      simp only [beq_iff_eq, ha', hb', if_false]
      omega
    | cons₂ _ h' =>
      have hbmem : b ∈ rest := h'.subset (by simp)
      have hab : ¬(a == b) = true := by
        simp only [beq_iff_eq]; intro hc; exact hn.1 (hc ▸ hbmem)
      have hb' : ¬ jsIndexOf rest b = -1 :=
        fun hc => (jsIndexOf_eq_neg_one rest b |>.mp hc) hbmem
      have hge := jsIndexOf_nonneg rest b hbmem
      simp only [jsIndexOf, beq_self_eq_true, if_true, hab, if_false,
        Bool.false_eq_true, beq_iff_eq, hb']
      omega

theorem lintZennFrontmatter_wrongOrder (cfg : LintConfig) (path : String)
    (data : List (String × Yaml)) :
    (lintZennFrontmatter cfg path data).wrongOrder =
      !isInCorrectOrder cfg.propertyOrder (data.map (fun kv => kv.1)) := by
  unfold lintZennFrontmatter
  dsimp only
  split
  · split <;> rfl
  · rfl

/-- C1: the frontmatter validator's order check sets `wrongOrder = false`
iff every consecutive pair of observed keys that both occur in the
canonical order appears in strictly increasing canonical position
(pairs with a key outside the canonical order are exempt, and an empty
or single-key sequence is trivially in order, both covered by the
quantifier); in particular a key sequence drawn from the canonical
order in canonical sequence (a sublist of a duplicate-free canonical
order) yields `wrongOrder = false`. -/
theorem C1_order_check (cfg : LintConfig) (path : String)
    (data : List (String × Yaml)) :
    (((lintZennFrontmatter cfg path data).wrongOrder = false) ↔
      ∀ i, i + 1 < (data.map (fun kv => kv.1)).length →
        (data.map (fun kv => kv.1)).getD i "" ∈ cfg.propertyOrder →
        (data.map (fun kv => kv.1)).getD (i + 1) "" ∈ cfg.propertyOrder →
        jsIndexOf cfg.propertyOrder ((data.map (fun kv => kv.1)).getD i "") <
          jsIndexOf cfg.propertyOrder ((data.map (fun kv => kv.1)).getD (i + 1) "")) ∧
    (cfg.propertyOrder.Nodup →
      ((data.map (fun kv => kv.1)).Sublist cfg.propertyOrder →
        (lintZennFrontmatter cfg path data).wrongOrder = false)) := by
  have hwo := lintZennFrontmatter_wrongOrder cfg path data
  have hbase : ((lintZennFrontmatter cfg path data).wrongOrder = false) ↔
      isInCorrectOrder cfg.propertyOrder (data.map (fun kv => kv.1)) = true := by
    rw [hwo]; simp
  constructor
  · rw [hbase, isInCorrectOrder_iff]
    constructor
    · intro h i hi hm1 hm2
      have := (pairInOrder_iff _ _ _).mp (h i hi)
      exact this hm1 hm2
    · intro h i hi
      rw [pairInOrder_iff]
      intro hm1 hm2
      exact h i hi hm1 hm2
  · intro hnd hsub
    rw [hbase, isInCorrectOrder_iff]
    intro i hi
    rw [pairInOrder_iff]
    intro _ _
    exact jsIndexOf_lt_of_sublist cfg.propertyOrder hnd _ _
      ((consecutive_pair_sublist _ i hi).trans hsub)

/-- Witness for C1 at a concrete document: keys `title, type` drawn
from the default canonical order, in canonical order. -/
theorem C1_order_check_witness :
    (lintZennFrontmatter DEFAULT_CONFIG "articles/how-to-use-zenn.md"
      [("title", Yaml.str "T"), ("type", Yaml.str "tech")]).wrongOrder = false :=
  (C1_order_check DEFAULT_CONFIG "articles/how-to-use-zenn.md"
    [("title", Yaml.str "T"), ("type", Yaml.str "tech")]).2
    (by decide) (by decide)

/-! ## Properties of the normalizer -/

theorem hasKey_append (l1 l2 : List (String × Yaml)) (k : String) :
    hasKey (l1 ++ l2) k = (hasKey l1 k || hasKey l2 k) := by
  unfold hasKey; exact List.any_append

theorem objSet_of_not_hasKey (kvs : List (String × Yaml)) (k : String) (v : Yaml)
    (h : hasKey kvs k = false) : objSet kvs k v = kvs ++ [(k, v)] := by
  unfold objSet
  rw [h]
  simp

theorem jsGet_isSome (kvs : List (String × Yaml)) (k : String) :
    (jsGet kvs k).isSome = hasKey kvs k := by
  unfold jsGet hasKey
  induction kvs with
  | nil => rfl
  | cons kv rest ih =>
    rw [List.find?_cons, List.any_cons]
    by_cases h : (kv.1 == k) = true
    · simp [h]
    · rw [Bool.not_eq_true] at h
      simp [h, ih]

theorem jsGet_append (l1 l2 : List (String × Yaml)) (k : String) :
    jsGet (l1 ++ l2) k = (jsGet l1 k).or (jsGet l2 k) := by
  unfold jsGet
  rw [List.find?_append]
  cases List.find? (fun kv => kv.1 == k) l1 <;> simp

theorem sortFrontmatter_first_pass (order : List String)
    (data acc : List (String × Yaml)) (hnd : order.Nodup)
    (hacc : ∀ p ∈ order, hasKey acc p = false) :
    order.foldl (fun sorted prop =>
      match jsGet data prop with
      | some v => objSet sorted prop v
      | none => sorted) acc
    = acc ++ order.filterMap (fun p => (jsGet data p).map (fun v => (p, v))) := by
  induction order generalizing acc with
  | nil => simp
  | cons p rest ih =>
    rw [List.nodup_cons] at hnd
    simp only [List.foldl_cons, List.filterMap_cons]
    cases hjp : jsGet data p with
    | none =>
      simpa using ih acc hnd.2 (fun q hq => hacc q (List.mem_cons_of_mem p hq))
    | some v =>
      dsimp only [Option.map_some']
      have h1 : hasKey acc p = false := hacc p (List.mem_cons_self p rest)
      rw [objSet_of_not_hasKey _ _ _ h1]
      rw [ih (acc ++ [(p, v)]) hnd.2 ?_]
      · simp
      · intro q hq
        rw [hasKey_append]
        have h2 : hasKey acc q = false := hacc q (List.mem_cons_of_mem p hq)
        have h3 : hasKey [(p, v)] q = false := by
          have hne : p ≠ q := fun hc => hnd.1 (hc ▸ hq)
          simp [hasKey, hne]
        rw [h2, h3]
        rfl

theorem sortFrontmatter_second_pass (data acc : List (String × Yaml))
    (hdd : (data.map (fun kv => kv.1)).Nodup) :
    data.foldl (fun sorted kv =>
      if hasKey sorted kv.1 then sorted else objSet sorted kv.1 kv.2) acc
    = acc ++ data.filter (fun kv => !hasKey acc kv.1) := by
  induction data generalizing acc with
  | nil => simp
  | cons kv rest ih =>
    simp only [List.map_cons, List.nodup_cons] at hdd
    simp only [List.foldl_cons, List.filter_cons]
    by_cases h : hasKey acc kv.1 = true
    · rw [if_pos h, ih acc hdd.2, h]
      simp
    · rw [Bool.not_eq_true] at h
      rw [if_neg (by rw [h]; exact Bool.false_ne_true)]
      rw [objSet_of_not_hasKey _ _ _ h]
      rw [ih (acc ++ [(kv.1, kv.2)]) hdd.2]
      have hfc : rest.filter (fun kv2 => !hasKey (acc ++ [(kv.1, kv.2)]) kv2.1)
          = rest.filter (fun kv2 => !hasKey acc kv2.1) := by
        apply List.filter_congr
        intro x hx
        rw [hasKey_append]
        have h3 : hasKey [(kv.1, kv.2)] x.1 = false := by
          have hne : kv.1 ≠ x.1 :=
            fun hc => hdd.1 (hc ▸ List.mem_map_of_mem (fun kv => kv.1) hx)
          simp [hasKey, hne]
        rw [h3, Bool.or_false]
      rw [hfc, h]
      simp [Prod.mk.eta]

theorem hasKey_iff (kvs : List (String × Yaml)) (q : String) :
    hasKey kvs q = true ↔ ∃ kv ∈ kvs, kv.1 = q := by
  unfold hasKey
  rw [List.any_eq_true]
  simp only [beq_iff_eq]

theorem hasKey_canonicalPart (order : List String) (data : List (String × Yaml))
    (q : String) :
    hasKey (order.filterMap (fun p => (jsGet data p).map (fun v => (p, v)))) q = true
      ↔ q ∈ order ∧ hasKey data q = true := by
  rw [hasKey_iff]
  constructor
  · rintro ⟨kv, hmem, hq⟩
    rw [List.mem_filterMap] at hmem
    obtain ⟨p, hp, hf⟩ := hmem
    cases hj : jsGet data p with
    | none => rw [hj] at hf; simp at hf
    | some v =>
      rw [hj] at hf
      simp only [Option.map_some', Option.some.injEq] at hf
      have hpq : p = q := by rw [← hq, ← hf]
      subst hpq
      refine ⟨hp, ?_⟩
      rw [← jsGet_isSome, hj]
      rfl
  · rintro ⟨hq, hk⟩
    have hs : (jsGet data q).isSome = true := by rw [jsGet_isSome]; exact hk
    obtain ⟨v, hv⟩ := Option.isSome_iff_exists.mp hs
    exact ⟨(q, v), List.mem_filterMap.mpr ⟨q, hq, by rw [hv]; rfl⟩, rfl⟩

theorem sortFrontmatter_eq (order : List String) (data : List (String × Yaml))
    (hnd : order.Nodup) (hdd : (data.map (fun kv => kv.1)).Nodup) :
    sortFrontmatter order data =
      (order.filterMap (fun p => (jsGet data p).map (fun v => (p, v)))) ++
      data.filter (fun kv => decide (kv.1 ∉ order)) := by
  unfold sortFrontmatter
  rw [sortFrontmatter_first_pass order data [] hnd (by intro p _; rfl)]
  rw [sortFrontmatter_second_pass data _ hdd]
  rw [List.nil_append]
  congr 1
  apply List.filter_congr
  intro kv hkv
  have hdk : hasKey data kv.1 = true := by
    rw [hasKey_iff]
    exact ⟨kv, hkv, rfl⟩
  by_cases h : kv.1 ∈ order
  · have := (hasKey_canonicalPart order data kv.1).mpr ⟨h, hdk⟩
    rw [this]
    simp [h]
  · have hfalse : hasKey (order.filterMap
        (fun p => (jsGet data p).map (fun v => (p, v)))) kv.1 = false := by
      rw [Bool.eq_false_iff]
      intro hc
      exact h ((hasKey_canonicalPart order data kv.1).mp hc).1
    rw [hfalse]
    simp [h]

theorem jsGet_cons (p : String) (v : Yaml) (l : List (String × Yaml)) (k : String) :
    jsGet ((p, v) :: l) k = if p = k then some v else jsGet l k := by
  unfold jsGet
  rw [List.find?_cons]
  by_cases h : p = k
  · simp [h]
  · have hb : (p == k) = false := beq_eq_false_iff_ne.mpr h
    simp [hb, h]

theorem jsGet_canonicalPart (order : List String) (data : List (String × Yaml))
    (hnd : order.Nodup) (k : String) :
    jsGet (order.filterMap (fun p => (jsGet data p).map (fun v => (p, v)))) k
      = if k ∈ order then jsGet data k else none := by
  induction order with
  | nil => simp [jsGet]
  | cons p rest ih =>
    rw [List.nodup_cons] at hnd
    simp only [List.filterMap_cons]
    cases hjp : jsGet data p with
    | none =>
      dsimp only [Option.map_none']
      rw [ih hnd.2]
      by_cases hk : k = p
      · subst hk
        have hknr : k ∉ rest := hnd.1
        simp [hknr, hjp]
      · simp [List.mem_cons, hk]
    | some v =>
      dsimp only [Option.map_some']
      rw [jsGet_cons]
      by_cases hk : k = p
      · subst hk
        simp [hjp]
      · rw [if_neg (fun hc => hk hc.symm), ih hnd.2]
        simp [List.mem_cons, hk]

theorem jsGet_restPart (order : List String) (data : List (String × Yaml)) (k : String) :
    jsGet (data.filter (fun kv => decide (kv.1 ∉ order))) k
      = if k ∈ order then none else jsGet data k := by
  induction data with
  | nil => simp [jsGet]
  | cons kv rest ih =>
    obtain ⟨a, b⟩ := kv
    rw [List.filter_cons]
    by_cases hm : a ∈ order
    · rw [if_neg (by simp [hm])]
      rw [ih]
      by_cases hk : k ∈ order
      · simp [hk]
      · have hak : a ≠ k := fun hc => hk (hc ▸ hm)
        rw [if_neg hk, if_neg hk, jsGet_cons, if_neg hak]
    · rw [if_pos (by simp [hm])]
      rw [jsGet_cons]
      by_cases hak : a = k
      · subst hak
        rw [if_pos rfl, if_neg hm, jsGet_cons, if_pos rfl]
      · rw [if_neg hak, ih, jsGet_cons, if_neg hak]

theorem sortFrontmatter_jsGet (order : List String) (data : List (String × Yaml))
    (hnd : order.Nodup) (hdd : (data.map (fun kv => kv.1)).Nodup) (k : String) :
    jsGet (sortFrontmatter order data) k = jsGet data k := by
  rw [sortFrontmatter_eq order data hnd hdd, jsGet_append,
    jsGet_canonicalPart order data hnd, jsGet_restPart order data]
  by_cases hk : k ∈ order
  · simp [hk, Option.or_none]
  · simp [hk, Option.none_or]

theorem canonicalPart_map_fst (order : List String) (data : List (String × Yaml)) :
    (order.filterMap (fun p => (jsGet data p).map (fun v => (p, v)))).map
        (fun kv => kv.1)
      = order.filter (fun p => hasKey data p) := by
  induction order with
  | nil => rfl
  | cons p rest ih =>
    simp only [List.filterMap_cons, List.filter_cons]
    cases hjp : jsGet data p with
    | none =>
      have hp : hasKey data p = false := by rw [← jsGet_isSome, hjp]; rfl
      simp [hp, ih]
    | some v =>
      have hp : hasKey data p = true := by rw [← jsGet_isSome, hjp]; rfl
      simp [hp, ih]

theorem sortFrontmatter_keys_nodup (order : List String) (data : List (String × Yaml))
    (hnd : order.Nodup) (hdd : (data.map (fun kv => kv.1)).Nodup) :
    ((sortFrontmatter order data).map (fun kv => kv.1)).Nodup := by
  rw [sortFrontmatter_eq order data hnd hdd, List.map_append, List.nodup_append]
  refine ⟨?_, ?_, ?_⟩
  · rw [canonicalPart_map_fst]
    exact hnd.filter _
  · exact List.Nodup.sublist (List.Sublist.map _ (List.filter_sublist data)) hdd
  · intro a ha hb
    rw [canonicalPart_map_fst, List.mem_filter] at ha
    rw [List.mem_map] at hb
    obtain ⟨kv, hkv, rfl⟩ := hb
    rw [List.mem_filter] at hkv
    exact (of_decide_eq_true hkv.2) ha.1

/-- C5: the frontmatter normalizer changes only key order: lookups and
key membership are preserved for every key, the result is exactly the
canonical-order keys present in the data (in canonical sequence,
carrying their values) followed by the non-canonical keys in their
original relative order, and the document body is untouched.
Hypotheses: the canonical order has no duplicate entries and the
metadata mapping has no duplicate keys (a parsed JS object cannot). -/
theorem C5_normalize_only_reorders (order : List String)
    (data : List (String × Yaml)) (hnd : order.Nodup)
    (hdd : (data.map (fun kv => kv.1)).Nodup) :
    (∀ k, jsGet (sortFrontmatter order data) k = jsGet data k) ∧
    (∀ k, hasKey (sortFrontmatter order data) k = hasKey data k) ∧
    (sortFrontmatter order data =
      (order.filterMap (fun p => (jsGet data p).map (fun v => (p, v)))) ++
      data.filter (fun kv => decide (kv.1 ∉ order))) ∧
    (∀ doc : ParsedDoc, (sortFrontmatterFile order doc).body = doc.body) := by
  refine ⟨sortFrontmatter_jsGet order data hnd hdd, ?_,
    sortFrontmatter_eq order data hnd hdd, fun doc => rfl⟩
  intro k
  rw [← jsGet_isSome, ← jsGet_isSome, sortFrontmatter_jsGet order data hnd hdd k]

/-- Witness for C5 at a concrete mapping: an unlisted key `foo` ahead
of two canonical keys. -/
theorem C5_normalize_only_reorders_witness :
    jsGet (sortFrontmatter DEFAULT_CONFIG.propertyOrder
      [("foo", Yaml.num 1), ("emoji", Yaml.str "e"), ("title", Yaml.str "t")]) "foo"
      = some (Yaml.num 1) :=
  (C5_normalize_only_reorders DEFAULT_CONFIG.propertyOrder
    [("foo", Yaml.num 1), ("emoji", Yaml.str "e"), ("title", Yaml.str "t")]
    (by decide) (by decide)).1 "foo"

/-- C4: the frontmatter normalizer is idempotent — normalising an
already-normalised mapping changes nothing, in key order or content.
Hypotheses as for the frame property: duplicate-free canonical order
and duplicate-free metadata keys. -/
theorem C4_normalize_idempotent (order : List String)
    (data : List (String × Yaml)) (hnd : order.Nodup)
    (hdd : (data.map (fun kv => kv.1)).Nodup) :
    sortFrontmatter order (sortFrontmatter order data) = sortFrontmatter order data := by
  have hr := sortFrontmatter_keys_nodup order data hnd hdd
  rw [sortFrontmatter_eq order (sortFrontmatter order data) hnd hr]
  have h1 : (order.filterMap
        (fun p => (jsGet (sortFrontmatter order data) p).map (fun v => (p, v))))
      = order.filterMap (fun p => (jsGet data p).map (fun v => (p, v))) :=
    List.filterMap_congr
      (fun p _ => by rw [sortFrontmatter_jsGet order data hnd hdd p])
  rw [h1]
  have h2 : (sortFrontmatter order data).filter (fun kv => decide (kv.1 ∉ order))
      = data.filter (fun kv => decide (kv.1 ∉ order)) := by
    rw [sortFrontmatter_eq order data hnd hdd, List.filter_append]
    have hA : (order.filterMap
          (fun p => (jsGet data p).map (fun v => (p, v)))).filter
          (fun kv => decide (kv.1 ∉ order)) = [] := by
      rw [List.filter_eq_nil_iff]
      intro kv hkv
      rw [List.mem_filterMap] at hkv
      obtain ⟨p, hp, hf⟩ := hkv
      cases hj : jsGet data p with
      | none => rw [hj] at hf; simp at hf
      | some v =>
        rw [hj] at hf
        simp only [Option.map_some', Option.some.injEq] at hf
        subst hf
        simp [hp]
    have hB : (data.filter (fun kv => decide (kv.1 ∉ order))).filter
          (fun kv => decide (kv.1 ∉ order))
        = data.filter (fun kv => decide (kv.1 ∉ order)) :=
      List.filter_eq_self.mpr (fun a ha => (List.mem_filter.mp ha).2)
    rw [hA, hB, List.nil_append]
  rw [h2]
  exact (sortFrontmatter_eq order data hnd hdd).symm

/-- Witness for C4 at a concrete mapping. -/
theorem C4_normalize_idempotent_witness :
    sortFrontmatter DEFAULT_CONFIG.propertyOrder
        (sortFrontmatter DEFAULT_CONFIG.propertyOrder
          [("foo", Yaml.num 1), ("emoji", Yaml.str "e"), ("title", Yaml.str "t")])
      = sortFrontmatter DEFAULT_CONFIG.propertyOrder
          [("foo", Yaml.num 1), ("emoji", Yaml.str "e"), ("title", Yaml.str "t")] :=
  C4_normalize_idempotent DEFAULT_CONFIG.propertyOrder
    [("foo", Yaml.num 1), ("emoji", Yaml.str "e"), ("title", Yaml.str "t")]
    (by decide) (by decide)

/-! ## Properties of the slug check and the book manifest validator -/

/-- C6: the slug validator accepts exactly the full strings over
`[a-z0-9_-]` of length 12 to 50; the three example slugs behave as
specified; and in the document validator the slug flag is raised
exactly for the article content type with the path-derived (base name
minus extension) slug failing the check. -/
theorem C6_slug_validator (cfg : LintConfig) (path : String)
    (data : List (String × Yaml)) :
    (∀ s : String, isValidSlug s = true ↔
      ((∀ c ∈ s.toList, isSlugChar c = true) ∧ 12 ≤ s.length ∧ s.length ≤ 50)) ∧
    isValidSlug "how-to-use-it" = true ∧ "how-to-use-it".length = 13 ∧
    isValidSlug "bad" = false ∧
    isValidSlug "Has-Upper-Case-12" = false ∧
    ((lintZennFrontmatter cfg path data).invalidSlug =
      (getContentType cfg path == "article" &&
        !isValidSlug (extractSlugFromPath path))) := by
  refine ⟨?_, by decide, by decide, by decide, by decide, ?_⟩
  · intro s
    simp [isValidSlug, List.all_eq_true, and_assoc]
  · cases h1 : (getContentType cfg path == "article") with
    | false => simp [lintZennFrontmatter, h1]
    | true =>
      cases h2 : isValidSlug (extractSlugFromPath path) with
      | true => simp [lintZennFrontmatter, h1, h2]
      | false => simp [lintZennFrontmatter, h1, h2]

theorem lintBookConfig_empty_arr (cfg : LintConfig) (bookDir : String)
    (configData : List (String × Yaml)) (dirEntries : List String)
    (h : jsGet configData "chapters" = some (Yaml.arr [])) :
    lintBookConfig cfg bookDir true (some configData) dirEntries =
      checkNumberedChapterFiles dirEntries
        { dir := bookDir,
          missing := cfg.bookConfigRequiredProperties.filter
            (fun prop => !hasKey configData prop),
          missingConfigFile := false } := by
  have hk : hasKey configData "chapters" = true := by
    rw [← jsGet_isSome, h]; rfl
  conv_lhs => unfold lintBookConfig
  simp only [Bool.not_true, Bool.false_eq_true, if_false]
  rw [hk, h]
  simp only [if_true, Option.getD_some]

theorem lintBookConfig_null_chapters (cfg : LintConfig) (bookDir : String)
    (configData : List (String × Yaml)) (dirEntries : List String)
    (h : jsGet configData "chapters" = some Yaml.null) :
    lintBookConfig cfg bookDir true (some configData) dirEntries =
      { dir := bookDir,
        missing := cfg.bookConfigRequiredProperties.filter
          (fun prop => !hasKey configData prop),
        missingConfigFile := false } := by
  have hk : hasKey configData "chapters" = true := by
    rw [← jsGet_isSome, h]; rfl
  conv_lhs => unfold lintBookConfig
  simp only [Bool.not_true, Bool.false_eq_true, if_false]
  rw [hk, h]
  simp only [if_true, Option.getD_some]

/-- C7: when the manifest file exists but parsing it fails, the book
manifest validator reports every required key as missing and performs
no further check (the result carries only that finding); the run keeps
processing the remaining books, each contributing its own result. -/
theorem C7_unparseable_manifest (cfg : LintConfig) (bookDir : String)
    (dirEntries : List String) (files : List FileInput)
    (rest : List BookInput) (fix : Bool)
    (hreq : cfg.bookConfigRequiredProperties ≠ []) :
    (lintBookConfig cfg bookDir true none dirEntries =
      { dir := bookDir, missing := cfg.bookConfigRequiredProperties,
        missingConfigFile := false }) ∧
    ((runMainWithoutExit cfg files
        (({ dir := bookDir, configExists := true, parsed := none,
            dirEntries := dirEntries } : BookInput) :: rest) fix).bookConfigResults =
      { dir := bookDir, missing := cfg.bookConfigRequiredProperties,
        missingConfigFile := false } ::
        (runMainWithoutExit cfg files rest fix).bookConfigResults) := by
  constructor
  · rfl
  · unfold runMainWithoutExit
    dsimp only
    rw [List.map_cons, List.filter_cons]
    have h2 : bookHasError (lintBookConfig cfg bookDir true none dirEntries) = true := by
      unfold bookHasError
      have : (lintBookConfig cfg bookDir true none dirEntries).missing =
          cfg.bookConfigRequiredProperties := rfl
      rw [this]
      have : cfg.bookConfigRequiredProperties.isEmpty = false := by
        cases hc : cfg.bookConfigRequiredProperties with
        | nil => exact absurd hc hreq
        | cons a t => rfl
      rw [this]
      rfl
    rw [h2]
    rfl

/-- Witness for C7: the default configuration has a non-empty required
list; a book whose manifest fails to parse yields exactly the
all-missing result. -/
theorem C7_unparseable_manifest_witness :
    lintBookConfig DEFAULT_CONFIG "books/broken" true none [] =
      { dir := "books/broken",
        missing := DEFAULT_CONFIG.bookConfigRequiredProperties,
        missingConfigFile := false } :=
  (C7_unparseable_manifest DEFAULT_CONFIG "books/broken" [] [] [] false
    (by decide)).1

/-- C10: a manifest in which the `chapters` key is present with a null
value (a bare `chapters:` line) passes every chapter check: the
not-a-list test only fires for values that are neither null nor
undefined, the key is present so it is not reported missing, and no
chapter flag or message is set. -/
theorem C10_null_chapters_pass (cfg : LintConfig) (bookDir : String)
    (configData : List (String × Yaml)) (dirEntries : List String)
    (h : jsGet configData "chapters" = some Yaml.null) :
    ((lintBookConfig cfg bookDir true (some configData) dirEntries).invalidChapters
      = false) ∧
    ((lintBookConfig cfg bookDir true (some configData) dirEntries).chaptersError
      = none) ∧
    ((lintBookConfig cfg bookDir true (some configData) dirEntries).duplicateChapterSlug
      = false) ∧
    "chapters" ∉ (lintBookConfig cfg bookDir true (some configData) dirEntries).missing := by
  have hk : hasKey configData "chapters" = true := by
    rw [← jsGet_isSome, h]; rfl
  rw [lintBookConfig_null_chapters cfg bookDir configData dirEntries h]
  refine ⟨rfl, rfl, rfl, ?_⟩
  intro hmem
  rw [List.mem_filter] at hmem
  rw [hk] at hmem
  simp at hmem

/-- Witness for C10: the one-key manifest `chapters:` (null value). -/
theorem C10_null_chapters_pass_witness :
    ((lintBookConfig DEFAULT_CONFIG "books/b" true (some [("chapters", Yaml.null)])
      []).invalidChapters = false) ∧
    "chapters" ∉ (lintBookConfig DEFAULT_CONFIG "books/b" true
      (some [("chapters", Yaml.null)]) []).missing :=
  ⟨(C10_null_chapters_pass DEFAULT_CONFIG "books/b" [("chapters", Yaml.null)] [] rfl).1,
   (C10_null_chapters_pass DEFAULT_CONFIG "books/b" [("chapters", Yaml.null)] [] rfl).2.2.2⟩

/-! ## Aggregation properties -/

theorem not_isEmpty_filter {α : Type} (l : List α) (p : α → Bool) :
    (!(l.filter p).isEmpty) = l.any p := by
  induction l with
  | nil => rfl
  | cons a t ih =>
    rw [List.filter_cons, List.any_cons]
    by_cases h : p a = true
    · simp [h]
    · rw [Bool.not_eq_true] at h
      simp [h, ih]

theorem perm_any {α : Type} (p : α → Bool) {l1 l2 : List α} (h : l1.Perm l2) :
    l1.any p = l2.any p := by
  cases h1 : l1.any p with
  | true =>
    rw [List.any_eq_true] at h1
    obtain ⟨x, hx, hpx⟩ := h1
    exact (List.any_eq_true.mpr ⟨x, h.mem_iff.mp hx, hpx⟩).symm
  | false =>
    cases h2 : l2.any p with
    | false => rfl
    | true =>
      rw [List.any_eq_true] at h2
      obtain ⟨x, hx, hpx⟩ := h2
      have := List.any_eq_true.mpr ⟨x, h.mem_iff.mpr hx, hpx⟩
      rw [h1] at this
      exact absurd this (by simp)

theorem runMainWithoutExit_hasErrors (cfg : LintConfig) (files : List FileInput)
    (books : List BookInput) (fix : Bool) :
    (runMainWithoutExit cfg files books fix).hasErrors =
      ((files.filterMap (fun f => (f.parsed).map (lintZennFrontmatter cfg f.path))).any
          docHasError ||
        (books.map (fun b =>
          lintBookConfig cfg b.dir b.configExists b.parsed b.dirEntries)).any
          bookHasError) := by
  unfold runMainWithoutExit
  dsimp only
  rw [not_isEmpty_filter, not_isEmpty_filter]

/-- C8: the aggregate result is an OR-reduction over independent
per-item results — erroring iff some document result fails a check
(non-empty `missing`, `wrongOrder`, or the invalid-slug flag) or some
book result fails one (missing manifest file, missing required keys,
invalid chapters, or duplicate chapter slug); it is invariant under
reordering of the processed items; and the exit code is non-zero iff
the run errs and `--fix` was not supplied. -/
theorem C8_aggregation (cfg : LintConfig) (files files2 : List FileInput)
    (books books2 : List BookInput) (fix : Bool)
    (hf : files.Perm files2) (hb : books.Perm books2) :
    ((runMainWithoutExit cfg files books fix).hasErrors =
      ((files.filterMap (fun f => (f.parsed).map (lintZennFrontmatter cfg f.path))).any
          docHasError ||
        (books.map (fun b =>
          lintBookConfig cfg b.dir b.configExists b.parsed b.dirEntries)).any
          bookHasError)) ∧
    ((runMainWithoutExit cfg files books fix).hasErrors =
      (runMainWithoutExit cfg files2 books2 fix).hasErrors) ∧
    (((runMainWithoutExit cfg files books fix).exitCode ≠ 0) ↔
      ((runMainWithoutExit cfg files books fix).hasErrors = true ∧ fix = false)) := by
  refine ⟨runMainWithoutExit_hasErrors cfg files books fix, ?_, ?_⟩
  · rw [runMainWithoutExit_hasErrors cfg files books fix,
      runMainWithoutExit_hasErrors cfg files2 books2 fix]
    rw [perm_any docHasError (hf.filterMap _), perm_any bookHasError (hb.map _)]
  · have hexit : (runMainWithoutExit cfg files books fix).exitCode =
        (if ((runMainWithoutExit cfg files books fix).hasErrors && !fix) = true
          then 1 else 0) := by
      unfold runMainWithoutExit
      dsimp only
    rw [hexit]
    cases he : (runMainWithoutExit cfg files books fix).hasErrors <;> cases fix <;> simp

/-- Witness for C8 at concrete inputs: one failing document (missing
keys) in either order of discovery. -/
theorem C8_aggregation_witness :
    (runMainWithoutExit DEFAULT_CONFIG
        [{ path := "articles/this-is-a-long-slug.md", parsed := some [] },
         { path := "articles/another-long-slug-here.md",
           parsed := some [("title", Yaml.str "t"), ("emoji", Yaml.str "e"),
             ("type", Yaml.str "tech"), ("topics", Yaml.arr []),
             ("published", Yaml.bool true)] }]
        [] false).hasErrors =
      (runMainWithoutExit DEFAULT_CONFIG
        [{ path := "articles/another-long-slug-here.md",
           parsed := some [("title", Yaml.str "t"), ("emoji", Yaml.str "e"),
             ("type", Yaml.str "tech"), ("topics", Yaml.arr []),
             ("published", Yaml.bool true)] },
         { path := "articles/this-is-a-long-slug.md", parsed := some [] }]
        [] false).hasErrors :=
  (C8_aggregation DEFAULT_CONFIG
    [{ path := "articles/this-is-a-long-slug.md", parsed := some [] },
     { path := "articles/another-long-slug-here.md",
       parsed := some [("title", Yaml.str "t"), ("emoji", Yaml.str "e"),
         ("type", Yaml.str "tech"), ("topics", Yaml.arr []),
         ("published", Yaml.bool true)] }]
    [{ path := "articles/another-long-slug-here.md",
       parsed := some [("title", Yaml.str "t"), ("emoji", Yaml.str "e"),
         ("type", Yaml.str "tech"), ("topics", Yaml.arr []),
         ("published", Yaml.bool true)] },
     { path := "articles/this-is-a-long-slug.md", parsed := some [] }]
    [] [] false (List.Perm.swap _ _ _) (List.Perm.refl _)).2.1

/-! ## Properties of the duplicate-slug collection -/

theorem mem_collectDuplicates (l : List String) (seen : List String) (x : String) :
    x ∈ collectDuplicates seen l ↔ ((x ∈ seen ∧ x ∈ l) ∨ 2 ≤ l.count x) := by
  induction l generalizing seen with
  | nil => simp [collectDuplicates]
  | cons s rest ih =>
    unfold collectDuplicates
    by_cases hs : s ∈ seen
    · rw [if_pos hs]
      by_cases hxs : x = s
      · subst hxs
        simp [hs]
      · have hcnt : (s :: rest).count x = rest.count x := by
          rw [List.count_cons]
          simp [Ne.symm hxs]
        rw [hcnt]
        simp only [List.mem_cons, hxs, false_or]
        rw [ih seen]
    · rw [if_neg hs]
      rw [ih (seen ++ [s])]
      by_cases hxs : x = s
      · subst hxs
        have h1 : x ∈ seen ++ [x] := by simp
        have hcnt : (x :: rest).count x = rest.count x + 1 := by
          rw [List.count_cons]; simp
        have hmemc : x ∈ rest ↔ 1 ≤ rest.count x := by
          rw [← List.count_pos_iff]
          omega
        rw [hcnt]
        simp only [h1, true_and, List.mem_cons, true_or, hs, false_and, false_or]
        constructor
        · rintro (hr | hc)
          · have := hmemc.mp hr; omega
          · omega
        · intro hc
          have h2 : 1 ≤ rest.count x := by omega
          by_cases h3 : 2 ≤ rest.count x
          · exact Or.inr h3
          · exact Or.inl (hmemc.mpr h2)
      · have h1 : x ∈ seen ++ [s] ↔ x ∈ seen := by simp [hxs]
        have hcnt : (s :: rest).count x = rest.count x := by
          rw [List.count_cons]
          simp [Ne.symm hxs]
        rw [hcnt, h1]
        simp [hxs]

theorem collectDuplicates_nil_mem (l : List String) (x : String) :
    x ∈ collectDuplicates [] l ↔ 2 ≤ l.count x := by
  rw [mem_collectDuplicates]
  simp

theorem collectDuplicates_nil_ne_nil (l : List String) :
    collectDuplicates [] l ≠ [] ↔ ∃ x, 2 ≤ l.count x := by
  constructor
  · intro h
    match hc : collectDuplicates [] l with
    | [] => exact absurd hc h
    | x :: t =>
      have : x ∈ collectDuplicates [] l := by rw [hc]; simp
      exact ⟨x, (collectDuplicates_nil_mem l x).mp this⟩
  · rintro ⟨x, hx⟩ hnil
    have : x ∈ collectDuplicates [] l := (collectDuplicates_nil_mem l x).mpr hx
    rw [hnil] at this
    simp at this

/-! ## The filename-derived fallback -/

theorem checkNumbered_no_files (dirEntries : List String) (r : BookConfigLintResult)
    (h : dirEntries.filter (fun f => jsEndsWith f ".md") = []) :
    checkNumberedChapterFiles dirEntries r =
      { r with
          invalidChapters := true
          chaptersError := some "チャプターとなるMarkdownファイルが見つかりません。" } := by
  unfold checkNumberedChapterFiles
  rw [h]
  rfl

theorem checkNumbered_mixed (dirEntries : List String) (r : BookConfigLintResult)
    (hnum : ∃ f ∈ (dirEntries.filter (fun f => jsEndsWith f ".md")).insertionSort (fun a b => jsStrLe a b = true),
      isNumberedChapterFileName f = true)
    (hnon : ∃ f ∈ (dirEntries.filter (fun f => jsEndsWith f ".md")).insertionSort (fun a b => jsStrLe a b = true),
      isNumberedChapterFileName f = false) :
    checkNumberedChapterFiles dirEntries r =
      { r with
          invalidChapters := true
          chaptersError := some "一部のファイルのみが番号付き形式（数字.スラッグ.md）になっています。全てのファイルを統一してください。" } := by
  unfold checkNumberedChapterFiles
  dsimp only
  obtain ⟨fn, hfn, hfnum⟩ := hnum
  obtain ⟨fo, hfo, hfnon⟩ := hnon
  have hemp : ((dirEntries.filter (fun f => jsEndsWith f ".md")).insertionSort
      (fun a b => jsStrLe a b = true)).isEmpty = false := by
    cases hc : (dirEntries.filter (fun f => jsEndsWith f ".md")).insertionSort (fun a b => jsStrLe a b = true) with
    | nil => rw [hc] at hfn; simp at hfn
    | cons a t => rfl
  rw [hemp]
  simp only [Bool.false_eq_true, if_false]
  rw [if_pos]
  constructor
  · have : fo ∈ ((dirEntries.filter (fun f => jsEndsWith f ".md")).insertionSort
        (fun a b => jsStrLe a b = true)).filter (fun f => !isNumberedChapterFileName f) :=
      List.mem_filter.mpr ⟨hfo, by rw [hfnon]; rfl⟩
    exact List.length_pos_of_mem this
  · have hlt : (((dirEntries.filter (fun f => jsEndsWith f ".md")).insertionSort
        (fun a b => jsStrLe a b = true)).filter (fun f => !isNumberedChapterFileName f)).length <
        ((dirEntries.filter (fun f => jsEndsWith f ".md")).insertionSort (fun a b => jsStrLe a b = true)).length := by
      rw [List.length_filter_lt_length_iff_exists]
      exact ⟨fn, hfn, by rw [hfnum]; simp⟩
    omega

theorem checkNumbered_uniform (dirEntries : List String) (r : BookConfigLintResult)
    (hall : ∀ f ∈ (dirEntries.filter (fun f => jsEndsWith f ".md")).insertionSort (fun a b => jsStrLe a b = true),
      isNumberedChapterFileName f = true)
    (hne : (dirEntries.filter (fun f => jsEndsWith f ".md")).insertionSort (fun a b => jsStrLe a b = true) ≠ []) :
    checkNumberedChapterFiles dirEntries r =
      (if (collectDuplicates []
            (((dirEntries.filter (fun f => jsEndsWith f ".md")).insertionSort (fun a b => jsStrLe a b = true)).map
              extractSlugFromNumberedChapter)).isEmpty = false then
        { r with
            duplicateChapterSlug := true
            duplicateChapterNames := collectDuplicates []
              (((dirEntries.filter (fun f => jsEndsWith f ".md")).insertionSort (fun a b => jsStrLe a b = true)).map
                extractSlugFromNumberedChapter)
            invalidChapters := true
            chaptersError := some ("複数のチャプターで同じスラッグが使用されています: " ++
              String.intercalate ", " (collectDuplicates []
                (((dirEntries.filter (fun f => jsEndsWith f ".md")).insertionSort (fun a b => jsStrLe a b = true)).map
                  extractSlugFromNumberedChapter))) }
      else r) := by
  unfold checkNumberedChapterFiles
  dsimp only
  have hemp : ((dirEntries.filter (fun f => jsEndsWith f ".md")).insertionSort
      (fun a b => jsStrLe a b = true)).isEmpty = false := by
    cases hc : (dirEntries.filter (fun f => jsEndsWith f ".md")).insertionSort (fun a b => jsStrLe a b = true) with
    | nil => exact absurd hc hne
    | cons a t => rfl
  rw [hemp]
  simp only [Bool.false_eq_true, if_false]
  have hnil : ((dirEntries.filter (fun f => jsEndsWith f ".md")).insertionSort
      (fun a b => jsStrLe a b = true)).filter (fun f => !isNumberedChapterFileName f) = [] := by
    rw [List.filter_eq_nil_iff]
    intro f hf
    rw [hall f hf]
    simp
  rw [if_neg (by rw [hnil]; simp)]
  rw [List.filter_eq_self.mpr hall]
  cases hD : (collectDuplicates []
      (((dirEntries.filter (fun f => jsEndsWith f ".md")).insertionSort (fun a b => jsStrLe a b = true)).map
        extractSlugFromNumberedChapter)).isEmpty with
  | true => simp [hD]
  | false => simp [hD]

theorem charListLeb_total : ∀ as bs : List Char,
    charListLeb as bs = true ∨ charListLeb bs as = true
  | [], _ => Or.inl rfl
  | _ :: _, [] => Or.inr rfl
  | a :: as, b :: bs => by
    unfold charListLeb
    by_cases h : a = b
    · subst h
      rw [if_pos rfl, if_pos rfl]
      exact charListLeb_total as bs
    · rw [if_neg h, if_neg (Ne.symm h)]
      rcases lt_or_gt_of_ne h with hlt | hgt
      · exact Or.inl (decide_eq_true hlt)
      · exact Or.inr (decide_eq_true hgt)

theorem charListLeb_trans : ∀ as bs cs : List Char,
    charListLeb as bs = true → charListLeb bs cs = true → charListLeb as cs = true
  | [], _, _, _, _ => rfl
  | _ :: _, [], _, hab, _ => by simp [charListLeb] at hab
  | _ :: _, _ :: _, [], _, hbc => by simp [charListLeb] at hbc
  | a :: as, b :: bs, c :: cs, hab, hbc => by
    unfold charListLeb at hab hbc ⊢
    by_cases h1 : a = b
    · subst h1
      rw [if_pos rfl] at hab
      by_cases h2 : a = c
      · subst h2
        rw [if_pos rfl] at hbc ⊢
        exact charListLeb_trans as bs cs hab hbc
      · rw [if_neg h2] at hbc ⊢
        exact hbc
    · rw [if_neg h1] at hab
      by_cases h2 : b = c
      · subst h2
        rw [if_neg h1]
        exact hab
      · rw [if_neg h2] at hbc
        have hac : a < c := lt_trans (of_decide_eq_true hab) (of_decide_eq_true hbc)
        rw [if_neg (ne_of_lt hac)]
        exact decide_eq_true hac

theorem jsStrLe_total (a b : String) : jsStrLe a b = true ∨ jsStrLe b a = true :=
  charListLeb_total a.toList b.toList

theorem jsStrLe_trans (a b c : String) (h1 : jsStrLe a b = true)
    (h2 : jsStrLe b c = true) : jsStrLe a c = true :=
  charListLeb_trans a.toList b.toList c.toList h1 h2

/-- C2: a manifest declaring `chapters: []` sends the validator into
the filename-derived fallback instead of reporting an error: the
result is exactly the fallback applied to the missing-keys base
result; the examined list is the directory's `.md` entries sorted
lexicographically; no file at all is invalid ("no chapter files
found"); a mix of numbered and non-numbered names is invalid
(inconsistent naming); with uniformly numbered names the result is
invalid iff some derived slug repeats, and the duplicates list holds
exactly the repeated slugs; concretely, `chapters: []` with files
`1.a.md, 2.b.md` is valid while `1.a.md, 2.a.md` is invalid with
duplicate `a` reported. -/
theorem C2_empty_chapters_fallback (cfg : LintConfig) (bookDir : String)
    (configData : List (String × Yaml)) (dirEntries : List String)
    (h : jsGet configData "chapters" = some (Yaml.arr [])) :
    (lintBookConfig cfg bookDir true (some configData) dirEntries =
      checkNumberedChapterFiles dirEntries
        { dir := bookDir,
          missing := cfg.bookConfigRequiredProperties.filter
            (fun prop => !hasKey configData prop),
          missingConfigFile := false }) ∧
    (((dirEntries.filter (fun f => jsEndsWith f ".md")).insertionSort
        (fun a b => jsStrLe a b = true)).Perm
        (dirEntries.filter (fun f => jsEndsWith f ".md")) ∧
      ((dirEntries.filter (fun f => jsEndsWith f ".md")).insertionSort
        (fun a b => jsStrLe a b = true)).Sorted (fun a b => jsStrLe a b = true)) ∧
    (dirEntries.filter (fun f => jsEndsWith f ".md") = [] →
      (lintBookConfig cfg bookDir true (some configData) dirEntries).invalidChapters
          = true ∧
        (lintBookConfig cfg bookDir true (some configData) dirEntries).chaptersError
          = some "チャプターとなるMarkdownファイルが見つかりません。") ∧
    ((∃ f ∈ (dirEntries.filter (fun f => jsEndsWith f ".md")).insertionSort
        (fun a b => jsStrLe a b = true), isNumberedChapterFileName f = true) →
      (∃ f ∈ (dirEntries.filter (fun f => jsEndsWith f ".md")).insertionSort
        (fun a b => jsStrLe a b = true), isNumberedChapterFileName f = false) →
      (lintBookConfig cfg bookDir true (some configData) dirEntries).invalidChapters
          = true ∧
        (lintBookConfig cfg bookDir true (some configData) dirEntries).chaptersError
          = some "一部のファイルのみが番号付き形式（数字.スラッグ.md）になっています。全てのファイルを統一してください。") ∧
    ((∀ f ∈ (dirEntries.filter (fun f => jsEndsWith f ".md")).insertionSort
        (fun a b => jsStrLe a b = true), isNumberedChapterFileName f = true) →
      (dirEntries.filter (fun f => jsEndsWith f ".md")).insertionSort
        (fun a b => jsStrLe a b = true) ≠ [] →
      (((lintBookConfig cfg bookDir true (some configData) dirEntries).invalidChapters
          = true ↔
        ∃ s, 2 ≤ ((((dirEntries.filter (fun f => jsEndsWith f ".md")).insertionSort
          (fun a b => jsStrLe a b = true)).map extractSlugFromNumberedChapter).count s)) ∧
      (∀ s, s ∈ (lintBookConfig cfg bookDir true
          (some configData) dirEntries).duplicateChapterNames ↔
        2 ≤ ((((dirEntries.filter (fun f => jsEndsWith f ".md")).insertionSort
          (fun a b => jsStrLe a b = true)).map extractSlugFromNumberedChapter).count s)))) ∧
    (bookHasError (lintBookConfig DEFAULT_CONFIG "books/sample" true
        (some sampleManifestEmptyChapters) ["1.a.md", "2.b.md"]) = false) ∧
    ((lintBookConfig DEFAULT_CONFIG "books/sample" true
        (some sampleManifestEmptyChapters) ["1.a.md", "2.a.md"]).invalidChapters
        = true ∧
      (lintBookConfig DEFAULT_CONFIG "books/sample" true
        (some sampleManifestEmptyChapters) ["1.a.md", "2.a.md"]).duplicateChapterNames
        = ["a"]) := by
  have hA := lintBookConfig_empty_arr cfg bookDir configData dirEntries h
  refine ⟨hA,
    ⟨List.perm_insertionSort _ _,
     @List.sorted_insertionSort String (fun a b => jsStrLe a b = true) _
       ⟨jsStrLe_total⟩ ⟨fun a b c => jsStrLe_trans a b c⟩ _⟩,
    ?_, ?_, ?_, by decide, ⟨by decide, by decide⟩⟩
  · intro hnil
    rw [hA, checkNumbered_no_files dirEntries _ hnil]
    exact ⟨rfl, rfl⟩
  · intro hnum hnon
    rw [hA, checkNumbered_mixed dirEntries _ hnum hnon]
    exact ⟨rfl, rfl⟩
  · intro hall hne
    rw [hA, checkNumbered_uniform dirEntries _ hall hne]
    cases hD : (collectDuplicates []
        (((dirEntries.filter (fun f => jsEndsWith f ".md")).insertionSort
          (fun a b => jsStrLe a b = true)).map extractSlugFromNumberedChapter)).isEmpty with
    | true =>
      have hDnil : collectDuplicates []
          (((dirEntries.filter (fun f => jsEndsWith f ".md")).insertionSort
            (fun a b => jsStrLe a b = true)).map extractSlugFromNumberedChapter) = [] :=
        List.isEmpty_iff.mp hD
      rw [if_neg (by simp)]
      constructor
      · constructor
        · intro hinv
          exact absurd hinv (by simp)
        · rintro ⟨s, hs⟩
          exact absurd hDnil ((collectDuplicates_nil_ne_nil _).mpr ⟨s, hs⟩)
      · intro s
        constructor
        · intro hmem
          simp at hmem
        · intro hs
          exact absurd hDnil ((collectDuplicates_nil_ne_nil _).mpr ⟨s, hs⟩)
    | false =>
      rw [if_pos rfl]
      have hDne : collectDuplicates []
          (((dirEntries.filter (fun f => jsEndsWith f ".md")).insertionSort
            (fun a b => jsStrLe a b = true)).map extractSlugFromNumberedChapter) ≠ [] := by
        intro hc
        rw [hc] at hD
        simp at hD
      constructor
      · constructor
        · intro _
          exact (collectDuplicates_nil_ne_nil _).mp hDne
        · intro _
          rfl
      · intro s
        exact collectDuplicates_nil_mem _ s

/-! ## Explicit chapter lists -/

theorem findInvalidChapter_no_null (cs : List Yaml)
    (h : ∀ c ∈ cs, c ≠ Yaml.null) :
    findInvalidChapter cs = Except.ok (cs.find? chapterMissingFileOrTitle) := by
  induction cs with
  | nil => rfl
  | cons c rest ih =>
    cases c
    case null => exact absurd rfl (h _ (List.mem_cons_self _ _))
    case obj kvs =>
      unfold findInvalidChapter
      dsimp only
      by_cases hk : (hasKey kvs "file" && hasKey kvs "title") = true
      · rw [if_pos hk, ih (fun c hc => h c (List.mem_cons_of_mem _ hc))]
        have hm : chapterMissingFileOrTitle (Yaml.obj kvs) = false := by
          unfold chapterMissingFileOrTitle
          dsimp only
          rw [hk]
          rfl
        rw [List.find?_cons_of_neg _ (by rw [hm]; exact Bool.false_ne_true)]
      · rw [if_neg hk]
        have hm : chapterMissingFileOrTitle (Yaml.obj kvs) = true := by
          unfold chapterMissingFileOrTitle
          dsimp only
          rw [Bool.not_eq_true] at hk
          rw [hk]
          rfl
        rw [List.find?_cons_of_pos _ hm]
    all_goals
      simp [findInvalidChapter, chapterMissingFileOrTitle, List.find?_cons]

theorem chapterSlugs_strings (cs : List Yaml)
    (h : ∀ c ∈ cs, ∀ kvs, c = Yaml.obj kvs → ∀ v, jsGet kvs "file" = some v →
      v.truthy = true → ∃ s, v = Yaml.str s) :
    chapterSlugs cs = Except.ok (cs.filterMap chapterFileSlug) := by
  induction cs with
  | nil => rfl
  | cons c rest ih =>
    have hrest := ih (fun c hc => h c (List.mem_cons_of_mem _ hc))
    rw [List.filterMap_cons]
    cases c
    case obj kvs =>
      unfold chapterSlugs
      dsimp only
      rw [if_pos (show (Yaml.obj kvs).truthy = true from rfl)]
      cases hf : jsGet kvs "file" with
      | none =>
        have hcs : chapterFileSlug (Yaml.obj kvs) = none := by
          unfold chapterFileSlug
          dsimp only
          rw [hf]
        rw [hcs, hrest]
      | some v =>
        dsimp only
        cases htr : v.truthy with
        | true =>
          obtain ⟨s, rfl⟩ := h _ (List.mem_cons_self _ _) kvs rfl v hf htr
          rw [if_pos rfl]
          dsimp only
          have hse : (s == "") = false := by
            have hne : (s != "") = true := htr
            rw [bne] at hne
            rw [Bool.not_eq_true'] at hne
            exact hne
          have hcs : chapterFileSlug (Yaml.obj kvs) = some (basenameNoExt s) := by
            unfold chapterFileSlug
            dsimp only
            rw [hf]
            dsimp only
            rw [hse]
            rfl
          rw [hcs, hrest]
          rfl
        | false =>
          rw [if_neg (by exact Bool.false_ne_true)]
          have hcs : chapterFileSlug (Yaml.obj kvs) = none := by
            unfold chapterFileSlug
            dsimp only
            rw [hf]
            cases v
            case str s =>
              dsimp only
              have h3 : (s == "") = true := by
                have h4 : (!(s == "")) = false := htr
                cases hq : (s == "") with
                | true => rfl
                | false => rw [hq] at h4; simp at h4
              rw [if_pos h3]
            all_goals rfl
          rw [hcs, hrest]
    all_goals
      unfold chapterSlugs
      dsimp only
      rw [ite_self, hrest]
      rfl

theorem lintBookConfig_nonempty_arr (cfg : LintConfig) (bookDir : String)
    (configData : List (String × Yaml)) (dirEntries : List String)
    (c0 : Yaml) (cs : List Yaml) (found : Option Yaml) (slugs : List String)
    (h : jsGet configData "chapters" = some (Yaml.arr (c0 :: cs)))
    (hfind : findInvalidChapter (c0 :: cs) = Except.ok found)
    (hslugs : chapterSlugs (c0 :: cs) = Except.ok slugs) :
    lintBookConfig cfg bookDir true (some configData) dirEntries =
      (let base : BookConfigLintResult :=
        { dir := bookDir,
          missing := cfg.bookConfigRequiredProperties.filter
            (fun prop => !hasKey configData prop),
          missingConfigFile := false }
      let result :=
        match found with
        | some c =>
          if c.truthy then
            { base with
                invalidChapters := true
                chaptersError := some "各チャプターは file および title プロパティを持つ必要があります。" }
          else base
        | none => base
      if (!(collectDuplicates [] slugs).isEmpty) = true then
        { result with
            duplicateChapterSlug := true
            duplicateChapterNames := collectDuplicates [] slugs }
      else result) := by
  have hk : hasKey configData "chapters" = true := by
    rw [← jsGet_isSome, h]; rfl
  conv_lhs => unfold lintBookConfig
  simp only [Bool.not_true, Bool.false_eq_true, if_false]
  rw [hk, h]
  simp only [if_true, Option.getD_some]
  simp only [hfind, hslugs]
  rcases found with _ | c
  · rfl
  · cases c.truthy <;> rfl

theorem lintBookConfig_nonempty_fields (cfg : LintConfig) (bookDir : String)
    (configData : List (String × Yaml)) (dirEntries : List String)
    (c0 : Yaml) (cs : List Yaml) (found : Option Yaml) (slugs : List String)
    (h : jsGet configData "chapters" = some (Yaml.arr (c0 :: cs)))
    (hfind : findInvalidChapter (c0 :: cs) = Except.ok found)
    (hslugs : chapterSlugs (c0 :: cs) = Except.ok slugs) :
    ((lintBookConfig cfg bookDir true (some configData) dirEntries).invalidChapters
      = found.elim false Yaml.truthy) ∧
    ((lintBookConfig cfg bookDir true (some configData) dirEntries).duplicateChapterSlug
      = !(collectDuplicates [] slugs).isEmpty) ∧
    ((lintBookConfig cfg bookDir true (some configData) dirEntries).duplicateChapterNames
      = collectDuplicates [] slugs) ∧
    ((lintBookConfig cfg bookDir true (some configData) dirEntries).missing
      = cfg.bookConfigRequiredProperties.filter (fun prop => !hasKey configData prop)) := by
  rw [lintBookConfig_nonempty_arr cfg bookDir configData dirEntries c0 cs found slugs
    h hfind hslugs]
  dsimp only
  rcases found with _ | c
  · cases hD : (collectDuplicates [] slugs).isEmpty <;>
      first
      | simp [hD, List.isEmpty_iff.mp hD]
      | simp [hD]
  · cases htr : c.truthy <;>
      cases hD : (collectDuplicates [] slugs).isEmpty <;>
        first
        | simp [htr, hD, List.isEmpty_iff.mp hD]
        | simp [htr, hD]

/-- C3 (amended): for a non-empty explicit chapter list, the validator
finds the first descriptor lacking a `file` or a `title` key (or not
an object) and sets `invalidChapters = true` exactly when that found
descriptor is truthy — the source's `if (invalidChapter)` tests the
truthiness of the element `Array.prototype.find` returned, so a falsy
first invalid descriptor (`false`, `0`, `""`) leaves the flag unset;
`chapters: [{file: "x.md"}]` (an object, hence truthy) still yields
`invalidChapters = true`.  Independently of and in addition to that
check, a slug is derived from each descriptor's `file` value (base
name minus extension) and the duplicate flag and list report exactly
the slugs repeated across descriptors.  Hypotheses keep the scan
total: no descriptor is null (the JS key test would throw) and present
truthy `file` values are strings (path.basename would throw
otherwise). -/
theorem C3_explicit_chapters (cfg : LintConfig) (bookDir : String)
    (configData : List (String × Yaml)) (dirEntries : List String)
    (c0 : Yaml) (cs : List Yaml)
    (h : jsGet configData "chapters" = some (Yaml.arr (c0 :: cs)))
    (hwf : ∀ c ∈ c0 :: cs, c ≠ Yaml.null ∧
      ∀ kvs, c = Yaml.obj kvs → ∀ v, jsGet kvs "file" = some v →
        v.truthy = true → ∃ s, v = Yaml.str s) :
    ((lintBookConfig cfg bookDir true (some configData) dirEntries).invalidChapters
      = ((c0 :: cs).find? chapterMissingFileOrTitle).elim false Yaml.truthy) ∧
    ((lintBookConfig cfg bookDir true (some configData) dirEntries).duplicateChapterSlug
        = true ↔
      ∃ s, 2 ≤ (((c0 :: cs).filterMap chapterFileSlug).count s)) ∧
    (∀ s, s ∈ (lintBookConfig cfg bookDir true
        (some configData) dirEntries).duplicateChapterNames ↔
      2 ≤ (((c0 :: cs).filterMap chapterFileSlug).count s)) ∧
    ((lintBookConfig DEFAULT_CONFIG "books/b" true
      (some [("chapters", Yaml.arr [Yaml.obj [("file", Yaml.str "x.md")]])])
      []).invalidChapters = true) := by
  have hfind := findInvalidChapter_no_null (c0 :: cs) (fun c hc => (hwf c hc).1)
  have hslugs := chapterSlugs_strings (c0 :: cs) (fun c hc => (hwf c hc).2)
  obtain ⟨h1, h2, h3, _⟩ := lintBookConfig_nonempty_fields cfg bookDir configData
    dirEntries c0 cs _ _ h hfind hslugs
  refine ⟨h1, ?_, ?_, by decide⟩
  · rw [h2]
    constructor
    · intro hb
      have hne : collectDuplicates [] ((c0 :: cs).filterMap chapterFileSlug) ≠ [] := by
        intro hc
        rw [hc] at hb
        simp at hb
      exact (collectDuplicates_nil_ne_nil _).mp hne
    · intro hex
      have hne := (collectDuplicates_nil_ne_nil _).mpr hex
      cases hq : (collectDuplicates [] ((c0 :: cs).filterMap chapterFileSlug)).isEmpty with
      | true => exact absurd (List.isEmpty_iff.mp hq) hne
      | false => rfl
  · intro s
    rw [h3]
    exact collectDuplicates_nil_mem _ s

/-- Counterexample to C3 as originally stated: at `chapters: [false]`
the single descriptor lacks both `file` and `title` (it is not an
object), yet `invalidChapters` stays false — `find` returns the falsy
element `false` and the source's `if (invalidChapter)` does not fire. -/
theorem C3_falsy_descriptor_counterexample :
    (([Yaml.bool false] : List Yaml).any chapterMissingFileOrTitle = true) ∧
    ((lintBookConfig DEFAULT_CONFIG "books/b" true
      (some [("chapters", Yaml.arr [Yaml.bool false])]) []).invalidChapters
      = false) :=
  ⟨by decide, by decide⟩

/-- Witness for C3 at a concrete manifest: one well-formed chapter
descriptor, missing `title` at top level. -/
theorem C3_explicit_chapters_witness :
    (lintBookConfig DEFAULT_CONFIG "books/mybook" true (some manifestMissingTitle)
      []).invalidChapters =
      (([Yaml.obj [("file", Yaml.str "1.intro.md"), ("title", Yaml.str "Intro")]] :
          List Yaml).find? chapterMissingFileOrTitle).elim false Yaml.truthy :=
  (C3_explicit_chapters DEFAULT_CONFIG "books/mybook" manifestMissingTitle []
    (Yaml.obj [("file", Yaml.str "1.intro.md"), ("title", Yaml.str "Intro")]) []
    rfl
    (by
      intro c hc
      rw [List.mem_singleton] at hc
      subst hc
      refine ⟨fun hcon => Yaml.noConfusion hcon, ?_⟩
      intro kvs hkvs v hv _
      cases hkvs
      rw [show jsGet [("file", Yaml.str "1.intro.md"), ("title", Yaml.str "Intro")]
          "file" = some (Yaml.str "1.intro.md") from rfl] at hv
      cases hv
      exact ⟨"1.intro.md", rfl⟩)).1

/-- Witness for C2 at a concrete manifest and directory. -/
theorem C2_empty_chapters_fallback_witness :
    lintBookConfig DEFAULT_CONFIG "books/sample" true (some sampleManifestEmptyChapters)
        ["1.a.md", "2.b.md"] =
      checkNumberedChapterFiles ["1.a.md", "2.b.md"]
        { dir := "books/sample",
          missing := DEFAULT_CONFIG.bookConfigRequiredProperties.filter
            (fun prop => !hasKey sampleManifestEmptyChapters prop),
          missingConfigFile := false } :=
  (C2_empty_chapters_fallback DEFAULT_CONFIG "books/sample" sampleManifestEmptyChapters
    ["1.a.md", "2.b.md"] rfl).1

/-- C9: counterexample to the reporting guarantee in the named script.
`main` of `scripts/lint-zenn.ts` prints a book's missing-required-keys
line only when the directory name contains `zenn-book-sample`, and the
line then always names `price` instead of the computed list: a book at
`books/mybook` whose manifest lacks only `title` contributes to the
erroring determination, yet its report block carries no missing-key
line at all — the finding is silently dropped.  The fuller
`runMainWithoutExit` report variant prints the computed list, showing
the intended behaviour. -/
theorem C9_missing_keys_dropped_from_report :
    ((lintBookConfig DEFAULT_CONFIG "books/mybook" true (some manifestMissingTitle)
        []).missing = ["title"]) ∧
    (bookHasError (lintBookConfig DEFAULT_CONFIG "books/mybook" true
        (some manifestMissingTitle) []) = true) ∧
    (reportBookLinesZenn (lintBookConfig DEFAULT_CONFIG "books/mybook" true
        (some manifestMissingTitle) []) = ["\n本ディレクトリ: books/mybook"]) ∧
    (reportBookLines (lintBookConfig DEFAULT_CONFIG "books/mybook" true
        (some manifestMissingTitle) []) =
      ["\n本ディレクトリ: books/mybook", "  必須プロパティが不足しています: title"]) :=
  ⟨by decide, by decide, by decide, by decide⟩

/-- Witness for C6 at a concrete path: `articles/bad.md` (3-character
slug). -/
theorem C6_slug_validator_witness :
    (lintZennFrontmatter DEFAULT_CONFIG "articles/bad.md" []).invalidSlug =
      (getContentType DEFAULT_CONFIG "articles/bad.md" == "article" &&
        !isValidSlug (extractSlugFromPath "articles/bad.md")) :=
  (C6_slug_validator DEFAULT_CONFIG "articles/bad.md" []).2.2.2.2.2
